import Mathlib

/-!
Verification of `qt_binder/loopback_guard.py`: a reference-counted,
reentrant loopback guard keyed by hashable lock items.

The Python guard keeps `locked_items : Option (dict Key Int)`, where the
dict is a `defaultdict(int)` that is lazily allocated by `acquire` and set
back to `None` by `release` once it becomes empty.  We embed the Python
dict as an insertion-ordered association list (`DDict`) together with the
exact primitive operations the source uses: `__getitem__` with default-0
insertion (`dgetd`), `__setitem__` (`dset`), `del` (`ddel`), and the
non-inserting membership test `in` (`dlookup` / `dmem`).
-/

namespace QtBinder

/-- A Python `dict` with `int` values, embedded as an insertion-ordered
association list.  All reachable dicts have unique keys. -/
abbrev DDict (K : Type) := List (K × Int)

variable {K : Type} [DecidableEq K]

/-- Python dict key lookup: the value stored under `k`, if present. -/
def dlookup : DDict K → K → Option Int
  | [], _ => none
  | (a, v) :: rest, k => if a = k then some v else dlookup rest k

/-- Python `k in d`: dict membership; never inserts anything. -/
def dmem (d : DDict K) (k : K) : Bool :=
  (dlookup d k).isSome

/-- Python `d[k] = v`: update the entry in place if the key is present,
otherwise append a new entry at the end (insertion order). -/
def dset : DDict K → K → Int → DDict K
  | [], k, v => [(k, v)]
  | (a, w) :: rest, k, v =>
    if a = k then (a, v) :: rest else (a, w) :: dset rest k v

/-- Python `defaultdict(int).__getitem__`: return the stored value, or
insert the default `0` at the end and return it (`__missing__`). -/
def dgetd (d : DDict K) (k : K) : DDict K × Int :=
  match dlookup d k with
  | some v => (d, v)
  | none => (d ++ [(k, 0)], 0)

/-- Python `del d[k]`: remove the entry for `k`. -/
def ddel : DDict K → K → DDict K
  | [], _ => []
  | (a, w) :: rest, k => if a = k then rest else (a, w) :: ddel rest k

/-- `LoopbackGuard.__slots__ = ('locked_items',)`; `locked_items` is
`None` while idle, or the allocated `defaultdict(int)`. -/
structure LoopbackGuard (K : Type) where
  locked_items : Option (DDict K)
deriving DecidableEq

/-- `LoopbackContext.__slots__` holds the guard reference and
`_items = tuple(items)`; in the pure embedding the guard is threaded
explicitly, so the context carries only its item tuple. -/
structure LoopbackContext (K : Type) where
  _items : List K
deriving DecidableEq

/-- `LoopbackGuard.__init__`: `self.locked_items = None`. -/
def LoopbackGuard.init : LoopbackGuard K := ⟨none⟩

/-- `LoopbackGuard.__call__(*items)`: build a `LoopbackContext` holding
`tuple(items)`; the guard itself is untouched, so the state-passing
version returns it unchanged alongside the context. -/
def LoopbackGuard.call (g : LoopbackGuard K) (items : List K) :
    LoopbackGuard K × LoopbackContext K :=
  (g, ⟨items⟩)

/-- `LoopbackGuard.__contains__(item)`: if `locked_items` is not `None`,
return `item in locked_items`, else `False`. -/
def LoopbackGuard.contains (g : LoopbackGuard K) (item : K) : Bool :=
  match g.locked_items with
  | some locked_items => dmem locked_items item
  | none => false

/-- `LoopbackGuard.__repr__`: the diagnostic view shows `None` when idle
and a copy `dict(locked_items)` otherwise. -/
def LoopbackGuard.reprView (g : LoopbackGuard K) : Option (DDict K) :=
  match g.locked_items with
  | none => none
  | some locked_items => some locked_items

/-- One iteration of the `acquire` loop: `locked_items[item] += 1`,
i.e. defaultdict read (inserting 0 if missing) followed by a store of
the incremented value. -/
def acquire1 (d : DDict K) (item : K) : DDict K :=
  let p := dgetd d item
  dset p.1 item (p.2 + 1)

/-- `LoopbackGuard.acquire(items)`: allocate the defaultdict if
`locked_items` is `None`, then run `locked_items[item] += 1` for each
item in order. -/
def LoopbackGuard.acquire (g : LoopbackGuard K) (items : List K) :
    LoopbackGuard K :=
  let locked_items :=
    match g.locked_items with
    | none => ([] : DDict K)
    | some d => d
  ⟨some (items.foldl acquire1 locked_items)⟩

/-- One iteration of the `release` loop: `locked_items[item] -= 1`
(defaultdict read inserting 0 if missing, then store the decremented
value), then `if locked_items[item] <= 0: del locked_items[item]`. -/
def release1 (d : DDict K) (item : K) : DDict K :=
  let p := dgetd d item
  let d2 := dset p.1 item (p.2 - 1)
  if p.2 - 1 ≤ 0 then ddel d2 item else d2

/-- `LoopbackGuard.release(items)`: if `locked_items` is not `None`, run
the per-item decrement/delete loop, then collapse to `None` when the
dict has become empty (`if not locked_items`). -/
def LoopbackGuard.release (g : LoopbackGuard K) (items : List K) :
    LoopbackGuard K :=
  match g.locked_items with
  | none => g
  | some locked_items =>
    let d := items.foldl release1 locked_items
    if d.isEmpty then ⟨none⟩ else ⟨some d⟩

/-- `LoopbackContext.__enter__`: `self._guard.acquire(self._items)`. -/
def LoopbackContext.enter (c : LoopbackContext K) (g : LoopbackGuard K) :
    LoopbackGuard K :=
  g.acquire c._items

/-- `LoopbackContext.__exit__`: `self._guard.release(self._items)`
(the exception triple is ignored, so exit behaves identically on normal
completion and on failure). -/
def LoopbackContext.exit (c : LoopbackContext K) (g : LoopbackGuard K) :
    LoopbackGuard K :=
  g.release c._items

/-- Python `with c: body` semantics: run `__enter__`, then the body
(which returns the possibly-modified guard and whether it raised), then
`__exit__` exactly once on every path. -/
def withStmt (c : LoopbackContext K)
    (body : LoopbackGuard K → LoopbackGuard K × Bool)
    (g : LoopbackGuard K) : LoopbackGuard K × Bool :=
  let g1 := c.enter g
  let p := body g1
  (c.exit p.1, p.2)

/-- The acquisition count the guard currently stores for a key
(0 when the key is absent or the mapping is unallocated). -/
def count (g : LoopbackGuard K) (k : K) : Int :=
  match g.locked_items with
  | some d => (dlookup d k).getD 0
  | none => 0

/-- A call to the guard's public mutating API. -/
inductive Op (K : Type) where
  | acquireOp (items : List K)
  | releaseOp (items : List K)

/-- Apply one public call to the guard. -/
def applyOp (g : LoopbackGuard K) : Op K → LoopbackGuard K
  | .acquireOp items => g.acquire items
  | .releaseOp items => g.release items

/-- Run a sequence of acquire/release calls from a starting state. -/
def run (ops : List (Op K)) (g : LoopbackGuard K) : LoopbackGuard K :=
  ops.foldl applyOp g

/-- Keys of the dict occur at most once (Python dict invariant). -/
def dnodupKeys : DDict K → Bool
  | [] => true
  | (a, _) :: rest => !(dmem rest a) && dnodupKeys rest

/-- Every stored count is at least 1 (spec §3 invariant). -/
def dallPos (d : DDict K) : Bool :=
  d.all (fun p => decide (1 ≤ p.2))

/-- The dict invariant: unique keys, all counts strictly positive. -/
def Dinv (d : DDict K) : Bool :=
  dnodupKeys d && dallPos d

/-- The guard invariant: the mapping, when allocated, satisfies `Dinv`. -/
def Ginv (g : LoopbackGuard K) : Bool :=
  match g.locked_items with
  | none => true
  | some d => Dinv d

/-- State-passing version of the Python dict membership test `k in d`:
dict `__contains__` walks the table and returns it unmodified (a
membership test never triggers the defaultdict `__missing__` hook). -/
def dmemOp : DDict K → K → DDict K × Bool
  | [], _ => ([], false)
  | (a, w) :: rest, k =>
    if a = k then ((a, w) :: rest, true)
    else
      let p := dmemOp rest k
      ((a, w) :: p.1, p.2)

/-- State-passing `LoopbackGuard.__contains__`, exposing the state the
query leaves behind alongside its boolean answer. -/
def containsOp (g : LoopbackGuard K) (item : K) : LoopbackGuard K × Bool :=
  match g.locked_items with
  | some locked_items =>
    let p := dmemOp locked_items item
    (⟨some p.1⟩, p.2)
  | none => (g, false)

/-- `n` successive calls of `acquire([k])`. -/
def acquireN (k : K) : Nat → LoopbackGuard K → LoopbackGuard K
  | 0, g => g
  | n + 1, g => acquireN k n (g.acquire [k])

/-- `n` successive calls of `release([k])`. -/
def releaseN (k : K) : Nat → LoopbackGuard K → LoopbackGuard K
  | 0, g => g
  | n + 1, g => releaseN k n (g.release [k])

/-- Keys as dynamically-typed Python objects, abstracted to whether the
object is hashable (e.g. a string) or unhashable (e.g. a list). -/
inductive PyObj where
  | hashableObj (n : Nat)
  | unhashableObj (n : Nat)
deriving DecidableEq

/-- Whether the object supports `hash()`. -/
def PyObj.isHashable : PyObj → Bool
  | .hashableObj _ => true
  | .unhashableObj _ => false

/-- The exception CPython raises when a dict operation receives an
unhashable key. -/
inductive PyError where
  | typeError
deriving DecidableEq

/-- `LoopbackGuard.acquire` over dynamically-typed keys: each loop
iteration `locked_items[item] += 1` hashes `item`, so the first
unhashable item raises `TypeError` out of the dict operation. -/
def acquireExc (g : LoopbackGuard PyObj) (items : List PyObj) :
    Except PyError (LoopbackGuard PyObj) :=
  let locked_items :=
    match g.locked_items with
    | none => ([] : DDict PyObj)
    | some d => d
  Except.map (fun d => (⟨some d⟩ : LoopbackGuard PyObj))
    (List.foldlM
      (fun d item =>
        if item.isHashable then Except.ok (acquire1 d item)
        else Except.error PyError.typeError)
      locked_items items)

/-- `LoopbackGuard.__call__` over dynamically-typed keys: it only runs
`tuple(items)`, which never hashes its elements, so the context is
built without raising for any items. -/
def makeScopeExc (g : LoopbackGuard PyObj) (items : List PyObj) :
    Except PyError (LoopbackGuard PyObj × LoopbackContext PyObj) :=
  Except.ok (g, ⟨items⟩)

/-! ### Structural lemmas about the dict primitives -/

@[simp] theorem dlookup_nil (k : K) : dlookup ([] : DDict K) k = none := rfl

theorem dlookup_cons (a : K) (w : Int) (d : DDict K) (k : K) :
    dlookup ((a, w) :: d) k = if a = k then some w else dlookup d k := rfl

@[simp] theorem dlookup_cons_self (a : K) (w : Int) (d : DDict K) :
    dlookup ((a, w) :: d) a = some w := by
  simp [dlookup_cons]

theorem dlookup_cons_ne {a k : K} (h : a ≠ k) (w : Int) (d : DDict K) :
    dlookup ((a, w) :: d) k = dlookup d k := by
  simp [dlookup_cons, h]

theorem dgetd_cons_ne {a k : K} (h : a ≠ k) (w : Int) (d : DDict K) :
    dgetd ((a, w) :: d) k = ((a, w) :: (dgetd d k).1, (dgetd d k).2) := by
  unfold dgetd
  cases hlk : dlookup d k <;> simp [dlookup_cons, h, hlk]

theorem dset_cons_ne {a k : K} (h : a ≠ k) (w v : Int) (d : DDict K) :
    dset ((a, w) :: d) k v = (a, w) :: dset d k v := by
  simp [dset, h]

theorem ddel_cons_ne {a k : K} (h : a ≠ k) (w : Int) (d : DDict K) :
    ddel ((a, w) :: d) k = (a, w) :: ddel d k := by
  simp [ddel, h]

@[simp] theorem acquire1_nil (k : K) : acquire1 ([] : DDict K) k = [(k, 1)] := by
  simp [acquire1, dgetd, dset]

@[simp] theorem acquire1_cons_self (k : K) (w : Int) (d : DDict K) :
    acquire1 ((k, w) :: d) k = (k, w + 1) :: d := by
  simp [acquire1, dgetd, dlookup_cons, dset]

theorem acquire1_cons_ne {a k : K} (h : a ≠ k) (w : Int) (d : DDict K) :
    acquire1 ((a, w) :: d) k = (a, w) :: acquire1 d k := by
  simp [acquire1, dgetd_cons_ne h, dset_cons_ne h]

@[simp] theorem release1_nil (k : K) : release1 ([] : DDict K) k = [] := by
  simp [release1, dgetd, dset, ddel]

@[simp] theorem release1_cons_self (k : K) (w : Int) (d : DDict K) :
    release1 ((k, w) :: d) k =
      if w - 1 ≤ 0 then d else (k, w - 1) :: d := by
  by_cases hw : w - 1 ≤ 0 <;> simp [release1, dgetd, dlookup_cons, dset, ddel, hw]

theorem release1_cons_ne {a k : K} (h : a ≠ k) (w : Int) (d : DDict K) :
    release1 ((a, w) :: d) k = (a, w) :: release1 d k := by
  by_cases hw : (dgetd d k).2 - 1 ≤ 0 <;>
    simp [release1, dgetd_cons_ne h, dset_cons_ne h, ddel_cons_ne h, hw]

/-! ### Lookup through the per-item operations -/

theorem dlookup_acquire1_self (d : DDict K) (k : K) :
    dlookup (acquire1 d k) k = some ((dlookup d k).getD 0 + 1) := by
  induction d with
  | nil => simp
  | cons p rest ih =>
    obtain ⟨a, w⟩ := p
    by_cases h : a = k
    · subst h; simp
    · rw [acquire1_cons_ne h, dlookup_cons_ne h, dlookup_cons_ne h, ih]

theorem dlookup_acquire1_ne {q k : K} (h : q ≠ k) (d : DDict K) :
    dlookup (acquire1 d k) q = dlookup d q := by
  induction d with
  | nil => simp [dlookup_cons, Ne.symm h]
  | cons p rest ih =>
    obtain ⟨a, w⟩ := p
    by_cases ha : a = k
    · subst ha
      simp [dlookup_cons_ne (Ne.symm h)]
    · rw [acquire1_cons_ne ha]
      by_cases haq : a = q
      · subst haq; simp
      · rw [dlookup_cons_ne haq, dlookup_cons_ne haq, ih]

theorem dlookup_release1_ne {q k : K} (h : q ≠ k) (d : DDict K) :
    dlookup (release1 d k) q = dlookup d q := by
  induction d with
  | nil => simp
  | cons p rest ih =>
    obtain ⟨a, w⟩ := p
    by_cases ha : a = k
    · subst ha
      by_cases hw : w - 1 ≤ 0 <;>
        simp [hw, dlookup_cons_ne (Ne.symm h)]
    · rw [release1_cons_ne ha]
      by_cases haq : a = q
      · subst haq; simp
      · rw [dlookup_cons_ne haq, dlookup_cons_ne haq, ih]

theorem dlookup_release1_self {d : DDict K} (hnd : dnodupKeys d = true) (k : K) :
    dlookup (release1 d k) k =
      match dlookup d k with
      | some v => if v - 1 ≤ 0 then none else some (v - 1)
      | none => none := by
  induction d with
  | nil => simp
  | cons p rest ih =>
    obtain ⟨a, w⟩ := p
    simp only [dnodupKeys, Bool.and_eq_true, Bool.not_eq_true'] at hnd
    by_cases ha : a = k
    · subst ha
      by_cases hw : w - 1 ≤ 0
      · simp only [release1_cons_self, if_pos hw, dlookup_cons_self]
        have : dlookup rest a = none := by
          cases hr : dlookup rest a
          · rfl
          · exfalso
            have := hnd.1
            rw [dmem, hr] at this
            simp at this
        simp [this, hw]
      · simp [hw]
    · rw [release1_cons_ne ha, dlookup_cons_ne ha, dlookup_cons_ne ha, ih hnd.2]

/-! ### Membership through the per-item operations -/

theorem dmem_acquire1_self (d : DDict K) (k : K) :
    dmem (acquire1 d k) k = true := by
  simp [dmem, dlookup_acquire1_self]

theorem dmem_acquire1_ne {q k : K} (h : q ≠ k) (d : DDict K) :
    dmem (acquire1 d k) q = dmem d q := by
  simp [dmem, dlookup_acquire1_ne h]

theorem dmem_release1_ne {q k : K} (h : q ≠ k) (d : DDict K) :
    dmem (release1 d k) q = dmem d q := by
  simp [dmem, dlookup_release1_ne h]

/-! ### Invariant preservation -/

theorem dnodupKeys_acquire1 {d : DDict K} (hnd : dnodupKeys d = true) (k : K) :
    dnodupKeys (acquire1 d k) = true := by
  induction d with
  | nil => simp [dnodupKeys, dmem]
  | cons p rest ih =>
    obtain ⟨a, w⟩ := p
    simp only [dnodupKeys, Bool.and_eq_true, Bool.not_eq_true'] at hnd
    by_cases ha : a = k
    · subst ha
      simp [dnodupKeys, hnd.1, hnd.2]
    · rw [acquire1_cons_ne ha]
      simp [dnodupKeys, dmem_acquire1_ne ha, hnd.1, ih hnd.2]

theorem dallPos_acquire1 {d : DDict K} (hp : dallPos d = true) (k : K) :
    dallPos (acquire1 d k) = true := by
  induction d with
  | nil => simp [dallPos]
  | cons p rest ih =>
    obtain ⟨a, w⟩ := p
    simp only [dallPos, List.all_cons, Bool.and_eq_true, decide_eq_true_eq] at hp ⊢
    by_cases ha : a = k
    · subst ha
      simp only [acquire1_cons_self, List.all_cons, Bool.and_eq_true, decide_eq_true_eq]
      exact ⟨by omega, hp.2⟩
    · rw [acquire1_cons_ne ha]
      simp only [List.all_cons, Bool.and_eq_true, decide_eq_true_eq]
      exact ⟨hp.1, ih hp.2⟩

theorem dnodupKeys_release1 {d : DDict K} (hnd : dnodupKeys d = true) (k : K) :
    dnodupKeys (release1 d k) = true := by
  induction d with
  | nil => simp [dnodupKeys]
  | cons p rest ih =>
    obtain ⟨a, w⟩ := p
    simp only [dnodupKeys, Bool.and_eq_true, Bool.not_eq_true'] at hnd
    by_cases ha : a = k
    · subst ha
      by_cases hw : w - 1 ≤ 0
      · simp [hw, hnd.2]
      · simp [hw, dnodupKeys, hnd.1, hnd.2]
    · rw [release1_cons_ne ha]
      simp [dnodupKeys, dmem_release1_ne ha, hnd.1, ih hnd.2]

theorem dallPos_release1 {d : DDict K} (hp : dallPos d = true) (k : K) :
    dallPos (release1 d k) = true := by
  induction d with
  | nil => simpa using hp
  | cons p rest ih =>
    obtain ⟨a, w⟩ := p
    simp only [dallPos, List.all_cons, Bool.and_eq_true, decide_eq_true_eq] at hp ⊢
    by_cases ha : a = k
    · subst ha
      by_cases hw : w - 1 ≤ 0
      · simpa [hw, dallPos] using hp.2
      · simp only [release1_cons_self, if_neg hw, List.all_cons, Bool.and_eq_true,
          decide_eq_true_eq]
        exact ⟨by omega, hp.2⟩
    · rw [release1_cons_ne ha]
      simp only [List.all_cons, Bool.and_eq_true, decide_eq_true_eq]
      exact ⟨hp.1, ih hp.2⟩

theorem Dinv_acquire1 {d : DDict K} (hd : Dinv d = true) (k : K) :
    Dinv (acquire1 d k) = true := by
  simp only [Dinv, Bool.and_eq_true] at hd ⊢
  exact ⟨dnodupKeys_acquire1 hd.1 k, dallPos_acquire1 hd.2 k⟩

theorem Dinv_release1 {d : DDict K} (hd : Dinv d = true) (k : K) :
    Dinv (release1 d k) = true := by
  simp only [Dinv, Bool.and_eq_true] at hd ⊢
  exact ⟨dnodupKeys_release1 hd.1 k, dallPos_release1 hd.2 k⟩

theorem Dinv_foldl_acquire1 {d : DDict K} (items : List K)
    (hd : Dinv d = true) : Dinv (items.foldl acquire1 d) = true := by
  induction items generalizing d with
  | nil => exact hd
  | cons i rest ih => exact ih (Dinv_acquire1 hd i)

theorem Dinv_foldl_release1 {d : DDict K} (items : List K)
    (hd : Dinv d = true) : Dinv (items.foldl release1 d) = true := by
  induction items generalizing d with
  | nil => exact hd
  | cons i rest ih => exact ih (Dinv_release1 hd i)

theorem Ginv_init : Ginv (LoopbackGuard.init : LoopbackGuard K) = true := rfl

theorem Dinv_nil : Dinv ([] : DDict K) = true := rfl

theorem Ginv_acquire {g : LoopbackGuard K} (hg : Ginv g = true)
    (items : List K) : Ginv (g.acquire items) = true := by
  obtain ⟨lk⟩ := g
  cases lk with
  | none => exact Dinv_foldl_acquire1 items Dinv_nil
  | some d =>
    simp only [Ginv] at hg
    exact Dinv_foldl_acquire1 items hg

theorem Ginv_release {g : LoopbackGuard K} (hg : Ginv g = true)
    (items : List K) : Ginv (g.release items) = true := by
  obtain ⟨lk⟩ := g
  cases lk with
  | none => exact hg
  | some d =>
    simp only [Ginv] at hg
    simp only [LoopbackGuard.release]
    by_cases he : (items.foldl release1 d).isEmpty
    · simp [he, Ginv]
    · simp only [he, if_false, Ginv]
      exact Dinv_foldl_release1 items hg

theorem Ginv_applyOp {g : LoopbackGuard K} (hg : Ginv g = true)
    (op : Op K) : Ginv (applyOp g op) = true := by
  cases op with
  | acquireOp items => exact Ginv_acquire hg items
  | releaseOp items => exact Ginv_release hg items

theorem Ginv_run {g : LoopbackGuard K} (ops : List (Op K))
    (hg : Ginv g = true) : Ginv (run ops g) = true := by
  induction ops generalizing g with
  | nil => exact hg
  | cons op rest ih => exact ih (Ginv_applyOp hg op)

/-! ### Guard-level computation lemmas -/

theorem acquire_one_init (k : K) :
    (LoopbackGuard.init : LoopbackGuard K).acquire [k] = ⟨some [(k, 1)]⟩ := by
  simp [LoopbackGuard.acquire, LoopbackGuard.init]

theorem acquire_one_single (k : K) (v : Int) :
    (⟨some [(k, v)]⟩ : LoopbackGuard K).acquire [k] = ⟨some [(k, v + 1)]⟩ := by
  simp [LoopbackGuard.acquire]

theorem release_one_single (k : K) (v : Int) :
    (⟨some [(k, v)]⟩ : LoopbackGuard K).release [k] =
      if v - 1 ≤ 0 then ⟨none⟩ else ⟨some [(k, v - 1)]⟩ := by
  by_cases hv : v - 1 ≤ 0 <;>
    simp [LoopbackGuard.release, hv]

theorem release_idle (items : List K) :
    (⟨none⟩ : LoopbackGuard K).release items = ⟨none⟩ := rfl

theorem contains_idle (k : K) :
    (⟨none⟩ : LoopbackGuard K).contains k = false := rfl

theorem contains_single_self (k : K) (v : Int) :
    (⟨some [(k, v)]⟩ : LoopbackGuard K).contains k = true := by
  simp [LoopbackGuard.contains, dmem]

theorem eq_init_of_locked_items_none {g : LoopbackGuard K}
    (h : g.locked_items = none) : g = LoopbackGuard.init := by
  obtain ⟨lk⟩ := g
  simp only at h
  rw [h]
  rfl

theorem acquire_some (d : DDict K) (items : List K) :
    (⟨some d⟩ : LoopbackGuard K).acquire items =
      ⟨some (items.foldl acquire1 d)⟩ := rfl

theorem acquire_idle (items : List K) :
    (⟨none⟩ : LoopbackGuard K).acquire items =
      ⟨some (items.foldl acquire1 [])⟩ := rfl

theorem release_some (d : DDict K) (items : List K) :
    (⟨some d⟩ : LoopbackGuard K).release items =
      if (items.foldl release1 d).isEmpty then ⟨none⟩
      else ⟨some (items.foldl release1 d)⟩ := rfl

theorem release_locked_items_ne_some_nil (g : LoopbackGuard K)
    (items : List K) :
    (g.release items).locked_items ≠ some ([] : DDict K) := by
  obtain ⟨lk⟩ := g
  cases lk with
  | none => exact fun h => Option.noConfusion h
  | some d =>
    rw [release_some]
    by_cases he : (items.foldl release1 d).isEmpty
    · rw [if_pos he]
      exact fun h => Option.noConfusion h
    · rw [if_neg he]
      intro h
      apply he
      have h2 : items.foldl release1 d = [] :=
        Option.some.inj (h : some (items.foldl release1 d) = some [])
      rw [h2]
      rfl

theorem dmemOp_fst (d : DDict K) (k : K) : (dmemOp d k).1 = d := by
  induction d with
  | nil => rfl
  | cons p rest ih =>
    obtain ⟨a, w⟩ := p
    by_cases ha : a = k <;> simp [dmemOp, ha, ih]

theorem dmemOp_snd (d : DDict K) (k : K) : (dmemOp d k).2 = dmem d k := by
  induction d with
  | nil => rfl
  | cons p rest ih =>
    obtain ⟨a, w⟩ := p
    by_cases ha : a = k <;> simp [dmemOp, dmem, dlookup_cons, ha, ih]

theorem dlookup_mem {d : DDict K} {k : K} {v : Int}
    (h : dlookup d k = some v) : (k, v) ∈ d := by
  induction d with
  | nil => simp at h
  | cons p rest ih =>
    obtain ⟨a, w⟩ := p
    by_cases ha : a = k
    · subst ha
      simp only [dlookup_cons_self, Option.some.injEq] at h
      subst h
      exact List.mem_cons_self _ _
    · rw [dlookup_cons_ne ha] at h
      exact List.mem_cons_of_mem _ (ih h)

theorem dallPos_of_dlookup {d : DDict K} {k : K} {v : Int}
    (hp : dallPos d = true) (h : dlookup d k = some v) : 1 ≤ v := by
  have hmem := dlookup_mem h
  simp only [dallPos, List.all_eq_true, decide_eq_true_eq] at hp
  exact hp _ hmem

/-! ### Iterated single-key acquire/release -/

theorem acquireN_single (k : K) (m : Nat) (v : Int) :
    acquireN k m ⟨some [(k, v)]⟩ = ⟨some [(k, v + m)]⟩ := by
  induction m generalizing v with
  | zero => simp [acquireN]
  | succ n ih =>
    have harith : v + 1 + (n : Int) = v + ((n : Int) + 1) := by ring
    have hcast : ((n + 1 : Nat) : Int) = (n : Int) + 1 := by push_cast; ring
    rw [acquireN, acquire_one_single, ih, harith, hcast]

theorem acquireN_init (k : K) (n : Nat) (hn : 1 ≤ n) :
    acquireN k n LoopbackGuard.init = (⟨some [(k, (n : Int))]⟩ : LoopbackGuard K) := by
  obtain ⟨m, rfl⟩ : ∃ m, n = m + 1 := ⟨n - 1, by omega⟩
  rw [acquireN, acquire_one_init, acquireN_single]
  have : (1 : Int) + (m : Int) = ((m + 1 : Nat) : Int) := by push_cast; ring
  rw [this]

theorem releaseN_single_lt (k : K) (m n : Nat) (h : m < n) :
    releaseN k m ⟨some [(k, (n : Int))]⟩ =
      (⟨some [(k, ((n - m : Nat) : Int))]⟩ : LoopbackGuard K) := by
  induction m generalizing n with
  | zero => simp [releaseN]
  | succ j ih =>
    have hn2 : 2 ≤ n := by omega
    have hne : ¬((n : Int) - 1 ≤ 0) := by
      have : (2 : Int) ≤ (n : Int) := by exact_mod_cast hn2
      omega
    rw [releaseN, release_one_single, if_neg hne]
    have hcast : (n : Int) - 1 = ((n - 1 : Nat) : Int) := by
      have : (1 : Int) ≤ (n : Int) := by exact_mod_cast (by omega : 1 ≤ n)
      omega
    rw [hcast, ih (n - 1) (by omega)]
    have : (n - 1 - j : Nat) = (n - (j + 1) : Nat) := by omega
    rw [this]

theorem releaseN_full (k : K) (n : Nat) (hn : 1 ≤ n) :
    releaseN k n ⟨some [(k, (n : Int))]⟩ = (⟨none⟩ : LoopbackGuard K) := by
  induction n with
  | zero => omega
  | succ m ih =>
    by_cases hm : m = 0
    · subst hm
      rw [releaseN, release_one_single, if_pos (by norm_num)]
      rfl
    · have hm1 : 1 ≤ m := by omega
      have hne : ¬(((m + 1 : Nat) : Int) - 1 ≤ 0) := by
        have : (1 : Int) ≤ (m : Int) := by exact_mod_cast hm1
        push_cast
        omega
      rw [releaseN, release_one_single, if_neg hne]
      have hcast : ((m + 1 : Nat) : Int) - 1 = (m : Int) := by push_cast; ring
      rw [hcast]
      exact ih hm1

theorem releaseN_idle (k : K) (m : Nat) :
    releaseN k m (⟨none⟩ : LoopbackGuard K) = ⟨none⟩ := by
  induction m with
  | zero => rfl
  | succ j ih => rw [releaseN, release_idle, ih]

/-! ### Acquire/release of a two-element item list -/

theorem init_eq :
    (LoopbackGuard.init : LoopbackGuard K) = ⟨none⟩ := rfl

theorem acquire_dup (k : K) :
    (LoopbackGuard.init : LoopbackGuard K).acquire [k, k] = ⟨some [(k, 2)]⟩ := by
  rw [init_eq, acquire_idle]
  norm_num [acquire1_nil, acquire1_cons_self]

theorem acquire_pair_distinct {k1 k2 : K} (h : k1 ≠ k2) :
    (LoopbackGuard.init : LoopbackGuard K).acquire [k1, k2] =
      ⟨some [(k1, 1), (k2, 1)]⟩ := by
  rw [init_eq, acquire_idle]
  norm_num [acquire1_nil, acquire1_cons_ne h]

theorem acquire_release_pair (k1 k2 : K) :
    ((LoopbackGuard.init : LoopbackGuard K).acquire [k1, k2]).release [k1, k2] =
      LoopbackGuard.init := by
  by_cases h : k1 = k2
  · subst h
    rw [acquire_dup, release_some]
    norm_num [release1_cons_self, LoopbackGuard.init]
  · rw [acquire_pair_distinct h, release_some]
    norm_num [release1_cons_self, release1_cons_ne h, LoopbackGuard.init]

/-! ### Claims -/

/-- C1: for every key `k` and every `n ≥ 1`, starting from a freshly
constructed `LoopbackGuard`, calling `acquire([k])` `n` times and then
`release([k])` `n` times leaves `contains(k)` false and the guard idle
(`locked_items` unallocated); after only `m < n` of those releases,
`contains(k)` is still true. -/
theorem spec_c1_acquire_release_symmetry (k : K) (n m : Nat)
    (hn : 1 ≤ n) (hm : m < n) :
    (releaseN k n (acquireN k n LoopbackGuard.init)).locked_items = none ∧
    (releaseN k n (acquireN k n LoopbackGuard.init)).contains k = false ∧
    (releaseN k m (acquireN k n LoopbackGuard.init)).contains k = true := by
  rw [acquireN_init k n hn, releaseN_full k n hn, releaseN_single_lt k m n hm]
  exact ⟨rfl, rfl, contains_single_self k _⟩

/-- Witness for C1 at `k = 0`, `n = 2`, `m = 1`. -/
theorem spec_c1_witness :
    (releaseN 0 2 (acquireN 0 2 (LoopbackGuard.init : LoopbackGuard Nat))).locked_items
        = none ∧
    (releaseN 0 2 (acquireN 0 2 (LoopbackGuard.init : LoopbackGuard Nat))).contains 0
        = false ∧
    (releaseN 0 1 (acquireN 0 2 (LoopbackGuard.init : LoopbackGuard Nat))).contains 0
        = true :=
  spec_c1_acquire_release_symmetry 0 2 1 (by decide) (by decide)

/-- C2: scope exit — via normal completion or a raised failure — calls
`release` on the owning guard with the same item sequence exactly once,
and after a scoped acquisition of `{k1, k2}` over an initially idle
guard exits, `contains(k1)` and `contains(k2)` are both false. -/
theorem spec_c2_scoped_cleanup (k1 k2 : K) (raised : Bool) :
    (∀ (g : LoopbackGuard K) (c : LoopbackContext K)
        (body : LoopbackGuard K → LoopbackGuard K × Bool),
      withStmt c body g = (c.exit (body (c.enter g)).1, (body (c.enter g)).2)) ∧
    (withStmt ⟨[k1, k2]⟩ (fun g => (g, raised)) LoopbackGuard.init).1
        = LoopbackGuard.init ∧
    (withStmt ⟨[k1, k2]⟩ (fun g => (g, raised)) LoopbackGuard.init).1.contains k1
        = false ∧
    (withStmt ⟨[k1, k2]⟩ (fun g => (g, raised)) LoopbackGuard.init).1.contains k2
        = false ∧
    (withStmt ⟨[k1, k2]⟩ (fun g => (g, raised)) LoopbackGuard.init).2 = raised := by
  have h1 := acquire_release_pair (K := K) k1 k2
  refine ⟨fun g c body => rfl, h1, ?_, ?_, rfl⟩
  · show ((LoopbackGuard.init.acquire [k1, k2]).release [k1, k2]).contains k1 = false
    rw [h1]
    rfl
  · show ((LoopbackGuard.init.acquire [k1, k2]).release [k1, k2]).contains k2 = false
    rw [h1]
    rfl

/-- C5: each duplicate occurrence in an acquire item list contributes one
independent increment: after `acquire([k, k])`, a single `release([k])`
leaves `contains(k)` true, and a second `release([k])` makes it false. -/
theorem spec_c5_duplicate_occurrences (k : K) :
    (((LoopbackGuard.init : LoopbackGuard K).acquire [k, k]).release [k]).contains k
        = true ∧
    ((((LoopbackGuard.init : LoopbackGuard K).acquire [k, k]).release [k]).release
        [k]).contains k = false := by
  have hr1 : ((LoopbackGuard.init : LoopbackGuard K).acquire [k, k]).release [k]
      = ⟨some [(k, 1)]⟩ := by
    rw [acquire_dup, release_some]
    norm_num [release1_cons_self]
  have hr0 : (⟨some [(k, 1)]⟩ : LoopbackGuard K).release [k] = ⟨none⟩ := by
    rw [release_one_single, if_pos (by norm_num)]
  rw [hr1, hr0]
  exact ⟨contains_single_self k 1, rfl⟩

/-- C7: for distinct keys `a ≠ b`, acquiring `[a, b]` from idle and then
releasing only `[a]` leaves `contains(a)` false and `contains(b)` true:
releasing one key leaves the other key's count untouched. -/
theorem spec_c7_multi_key_independence (a b : K) (hab : a ≠ b) :
    (((LoopbackGuard.init : LoopbackGuard K).acquire [a, b]).release [a]).contains a
        = false ∧
    (((LoopbackGuard.init : LoopbackGuard K).acquire [a, b]).release [a]).contains b
        = true := by
  have hrel : ((LoopbackGuard.init : LoopbackGuard K).acquire [a, b]).release [a]
      = ⟨some [(b, 1)]⟩ := by
    rw [acquire_pair_distinct hab, release_some]
    norm_num [release1_cons_self]
  rw [hrel]
  refine ⟨?_, contains_single_self b 1⟩
  simp [LoopbackGuard.contains, dmem, dlookup_cons, Ne.symm hab]

/-- Witness for C7 at `a = 0`, `b = 1`. -/
theorem spec_c7_witness :
    (((LoopbackGuard.init : LoopbackGuard Nat).acquire [0, 1]).release [0]).contains 0
        = false ∧
    (((LoopbackGuard.init : LoopbackGuard Nat).acquire [0, 1]).release [0]).contains 1
        = true :=
  spec_c7_multi_key_independence 0 1 (by decide)

/-- C9: `make_scope` (the guard's `__call__`) always succeeds, leaves the
guard's state and diagnostic view unchanged, and records the keys — in
order, duplicates preserved — in the context's immutable tuple; over
dynamically-typed keys it never raises for any item list. -/
theorem spec_c9_make_scope_pure (g : LoopbackGuard K) (items : List K) :
    LoopbackGuard.call g items = (g, ⟨items⟩) ∧
    (LoopbackGuard.call g items).1.reprView = g.reprView ∧
    ((LoopbackGuard.call g items).2)._items = items ∧
    ∀ (g2 : LoopbackGuard PyObj) (items2 : List PyObj),
      makeScopeExc g2 items2 = Except.ok (g2, ⟨items2⟩) :=
  ⟨rfl, rfl, rfl, fun _ _ => rfl⟩

/-- C10: the containment query leaves the guard state unchanged: it
agrees with the boolean `contains`, never inserts an entry into the
dict, never allocates the mapping, and leaves the diagnostic view
untouched. -/
theorem spec_c10_contains_is_pure (g : LoopbackGuard K) (k : K) :
    (containsOp g k).1 = g ∧
    (containsOp g k).2 = g.contains k ∧
    (containsOp g k).1.reprView = g.reprView := by
  obtain ⟨lk⟩ := g
  cases lk with
  | none => exact ⟨rfl, rfl, rfl⟩
  | some d =>
    refine ⟨?_, ?_, ?_⟩
    · simp [containsOp, dmemOp_fst]
    · simp [containsOp, dmemOp_snd, LoopbackGuard.contains]
    · simp [containsOp, dmemOp_fst]

/-- C6: on any guard state satisfying the maintained invariant,
`contains(item)` is true iff the mapping is allocated and the item is
stored with a count `≥ 1`; a fresh guard contains nothing and its
diagnostic view reports nothing locked. -/
theorem spec_c6_contains_iff (g : LoopbackGuard K) (item : K)
    (hg : Ginv g = true) :
    (g.contains item = true ↔
      ∃ d v, g.locked_items = some d ∧ dlookup d item = some v ∧ 1 ≤ v) ∧
    (LoopbackGuard.init : LoopbackGuard K).contains item = false ∧
    (LoopbackGuard.init : LoopbackGuard K).reprView = none := by
  refine ⟨?_, rfl, rfl⟩
  obtain ⟨lk⟩ := g
  cases lk with
  | none =>
    constructor
    · intro h
      simp [LoopbackGuard.contains] at h
    · rintro ⟨d, v, hd, -, -⟩
      exact Option.noConfusion hd
  | some d =>
    have hd : Dinv d = true := hg
    obtain ⟨hnd, hp⟩ : dnodupKeys d = true ∧ dallPos d = true := by
      simpa [Dinv, Bool.and_eq_true] using hd
    constructor
    · intro h
      have hm : dmem d item = true := h
      rw [dmem, Option.isSome_iff_exists] at hm
      obtain ⟨v, hv⟩ := hm
      exact ⟨d, v, rfl, hv, dallPos_of_dlookup hp hv⟩
    · rintro ⟨d2, v, hd2, hv, -⟩
      obtain rfl : d = d2 := Option.some.inj (hd2 : some d = some d2)
      show dmem d item = true
      rw [dmem, hv]
      rfl

/-- Witness for C6 on the guard holding key `0` with count `1`. -/
theorem spec_c6_witness :
    ((LoopbackGuard.mk (some [((0 : Nat), (1 : Int))])).contains 0 = true ↔
      ∃ d v, (LoopbackGuard.mk (some [((0 : Nat), (1 : Int))])).locked_items = some d ∧
        dlookup d 0 = some v ∧ 1 ≤ v) ∧
    (LoopbackGuard.init : LoopbackGuard Nat).contains 0 = false ∧
    (LoopbackGuard.init : LoopbackGuard Nat).reprView = none :=
  spec_c6_contains_iff (LoopbackGuard.mk (some [((0 : Nat), (1 : Int))])) 0 (by decide)

/-- C4: on any state satisfying the count invariant, releasing a key with
count 0 is a no-op on that key (and never raises, the operation being
total); releasing a held key removes exactly one layer; and no key is
ever stored with a count `≤ 0` after any acquire or release call (the
invariant is preserved). -/
theorem spec_c4_over_release (g : LoopbackGuard K) (k : K) (items : List K)
    (hg : Ginv g = true) :
    (count g k = 0 → count (g.release [k]) k = 0) ∧
    (1 ≤ count g k → count (g.release [k]) k = count g k - 1) ∧
    Ginv (g.acquire items) = true ∧
    Ginv (g.release items) = true := by
  refine ⟨?_, ?_, Ginv_acquire hg items, Ginv_release hg items⟩
  · obtain ⟨lk⟩ := g
    cases lk with
    | none => intro h0; exact h0
    | some d => ?_
    have hd : Dinv d = true := hg
    obtain ⟨hnd, hp⟩ : dnodupKeys d = true ∧ dallPos d = true := by
      simpa [Dinv, Bool.and_eq_true] using hd
    have hfold : [k].foldl release1 d = release1 d k := rfl
    intro h0
    have hc0 : (dlookup d k).getD 0 = 0 := h0
    have hlk : dlookup d k = none := by
      cases hv : dlookup d k with
      | none => rfl
      | some v =>
        have h1 := dallPos_of_dlookup hp hv
        rw [hv] at hc0
        simp only [Option.getD_some] at hc0
        omega
    have hlk2 : dlookup (release1 d k) k = none := by
      rw [dlookup_release1_self hnd k, hlk]
    rw [release_some]
    by_cases he : ([k].foldl release1 d).isEmpty
    · rw [if_pos he]
      rfl
    · rw [if_neg he]
      show (dlookup ([k].foldl release1 d) k).getD 0 = 0
      rw [hfold, hlk2]
      rfl
  · obtain ⟨lk⟩ := g
    cases lk with
    | none =>
      intro h1
      have hz : count (LoopbackGuard.mk (none : Option (DDict K))) k = 0 := rfl
      rw [hz] at h1
      omega
    | some d => ?_
    have hd : Dinv d = true := hg
    obtain ⟨hnd, hp⟩ : dnodupKeys d = true ∧ dallPos d = true := by
      simpa [Dinv, Bool.and_eq_true] using hd
    have hfold : [k].foldl release1 d = release1 d k := rfl
    intro h1
    have hc1 : 1 ≤ (dlookup d k).getD 0 := h1
    obtain ⟨v, hv⟩ : ∃ v, dlookup d k = some v := by
      cases hv : dlookup d k with
      | none =>
        rw [hv] at hc1
        simp only [Option.getD_none] at hc1
        omega
      | some v => exact ⟨v, rfl⟩
    have hcv : count (LoopbackGuard.mk (some d)) k = v := by
      show (dlookup d k).getD 0 = v
      rw [hv]
      rfl
    have hlk2 : dlookup (release1 d k) k =
        if v - 1 ≤ 0 then none else some (v - 1) := by
      rw [dlookup_release1_self hnd k, hv]
    rw [hcv, release_some]
    by_cases he : ([k].foldl release1 d).isEmpty
    · rw [if_pos he]
      have hdnil : release1 d k = [] := by
        rw [← hfold]
        cases hx : [k].foldl release1 d with
        | nil => rfl
        | cons p rest => rw [hx] at he; exact Bool.noConfusion he
      rw [hdnil] at hlk2
      by_cases hv1 : v - 1 ≤ 0
      · have hv2 : 1 ≤ v := dallPos_of_dlookup hp hv
        show (0 : Int) = v - 1
        omega
      · rw [if_neg hv1] at hlk2
        exact Option.noConfusion hlk2
    · rw [if_neg he]
      show (dlookup ([k].foldl release1 d) k).getD 0 = v - 1
      rw [hfold, hlk2]
      by_cases hv1 : v - 1 ≤ 0
      · rw [if_pos hv1]
        have hv2 : 1 ≤ v := dallPos_of_dlookup hp hv
        show (0 : Int) = v - 1
        omega
      · rw [if_neg hv1]
        rfl

/-- Witness for C4 on the guard holding key `0` with count `2`. -/
theorem spec_c4_witness :
    (count (LoopbackGuard.mk (some [((0 : Nat), (2 : Int))])) 0 = 0 →
      count ((LoopbackGuard.mk (some [((0 : Nat), (2 : Int))])).release [0]) 0 = 0) ∧
    (1 ≤ count (LoopbackGuard.mk (some [((0 : Nat), (2 : Int))])) 0 →
      count ((LoopbackGuard.mk (some [((0 : Nat), (2 : Int))])).release [0]) 0 =
        count (LoopbackGuard.mk (some [((0 : Nat), (2 : Int))])) 0 - 1) ∧
    Ginv ((LoopbackGuard.mk (some [((0 : Nat), (2 : Int))])).acquire [1]) = true ∧
    Ginv ((LoopbackGuard.mk (some [((0 : Nat), (2 : Int))])).release [1]) = true :=
  spec_c4_over_release (LoopbackGuard.mk (some [((0 : Nat), (2 : Int))])) 0 [1]
    (by decide)

theorem count_eq {g : LoopbackGuard K} {d : DDict K}
    (h : g.locked_items = some d) (q : K) :
    count g q = (dlookup d q).getD 0 := by
  obtain ⟨lk⟩ := g
  have h2 : lk = some d := h
  subst h2
  rfl

theorem Ginv_eq {g : LoopbackGuard K} {d : DDict K}
    (h : g.locked_items = some d) :
    Ginv g = Dinv d := by
  obtain ⟨lk⟩ := g
  have h2 : lk = some d := h
  subst h2
  rfl

/-- C3 counterexample: `acquire([])` is a sequence of calls in which
every key's count is zero throughout, yet it allocates the (empty)
mapping, so the resulting guard and its diagnostic view differ from the
freshly constructed state. -/
theorem spec_c3_counterexample :
    (∀ q : Nat, count (run [Op.acquireOp []] LoopbackGuard.init) q = 0) ∧
    run [Op.acquireOp []] (LoopbackGuard.init : LoopbackGuard Nat)
      ≠ LoopbackGuard.init ∧
    (run [Op.acquireOp []] (LoopbackGuard.init : LoopbackGuard Nat)).reprView
      ≠ (LoopbackGuard.init : LoopbackGuard Nat).reprView := by
  refine ⟨fun q => rfl, ?_, ?_⟩ <;> decide

/-- C3 amended: after any sequence of acquire/release calls that brings
every key's count back to zero and whose last call is a release, the
guard equals the freshly constructed state and the diagnostic view
equals a fresh guard's view.  (The unamended claim fails only for
zero-balance sequences ending in an `acquire`, such as `acquire([])`,
which leave an allocated empty mapping.) -/
theorem spec_c3_amended (ops : List (Op K)) (items : List K)
    (hz : ∀ q, count (run (ops ++ [Op.releaseOp items]) LoopbackGuard.init) q = 0) :
    run (ops ++ [Op.releaseOp items]) LoopbackGuard.init = LoopbackGuard.init ∧
    (run (ops ++ [Op.releaseOp items]) (LoopbackGuard.init : LoopbackGuard K)).reprView
      = (LoopbackGuard.init : LoopbackGuard K).reprView := by
  have hrun : run (ops ++ [Op.releaseOp items]) (LoopbackGuard.init : LoopbackGuard K)
      = (run ops LoopbackGuard.init).release items := by
    simp [run, List.foldl_append, applyOp]
  have hginv : Ginv ((run ops (LoopbackGuard.init : LoopbackGuard K)).release items)
      = true :=
    Ginv_release (Ginv_run ops Ginv_init) items
  have hnone :
      ((run ops (LoopbackGuard.init : LoopbackGuard K)).release items).locked_items
        = none := by
    cases hcase :
        ((run ops (LoopbackGuard.init : LoopbackGuard K)).release items).locked_items with
    | none => rfl
    | some d =>
      exfalso
      cases d with
      | nil => exact release_locked_items_ne_some_nil _ items hcase
      | cons p rest =>
        obtain ⟨a, v⟩ := p
        have hcount := hz a
        rw [hrun, count_eq hcase] at hcount
        simp only [dlookup_cons_self, Option.getD_some] at hcount
        have hD : Dinv ((a, v) :: rest) = true := by
          rw [← Ginv_eq hcase]
          exact hginv
        obtain ⟨hnd, hp⟩ : dnodupKeys ((a, v) :: rest) = true ∧
            dallPos ((a, v) :: rest) = true := by
          simpa [Dinv, Bool.and_eq_true] using hD
        have hpos : 1 ≤ v := dallPos_of_dlookup hp (dlookup_cons_self a v rest)
        omega
  have heq := eq_init_of_locked_items_none hnone
  rw [hrun, heq]
  exact ⟨rfl, rfl⟩

/-- Witness for the amended C3: `acquire([0]); release([0])` restores the
fresh state. -/
theorem spec_c3_witness :
    run ([Op.acquireOp [0]] ++ [Op.releaseOp [0]])
      (LoopbackGuard.init : LoopbackGuard Nat) = LoopbackGuard.init := by
  have hz : ∀ q : Nat,
      count (run ([Op.acquireOp [0]] ++ [Op.releaseOp [0]])
        (LoopbackGuard.init : LoopbackGuard Nat)) q = 0 := by
    have hrun : run ([Op.acquireOp [0]] ++ [Op.releaseOp [0]])
        (LoopbackGuard.init : LoopbackGuard Nat) = LoopbackGuard.init := by
      decide
    intro q
    rw [hrun]
    rfl
  exact (spec_c3_amended [Op.acquireOp [0]] [0] hz).1

/-- C8 counterexample: `make_scope` (the guard's `__call__`) with an
unhashable key does not raise at the point of the call — it returns the
scope normally, refuting the claim that invalid keys surface as an error
at `make_scope`. -/
theorem spec_c8_counterexample :
    makeScopeExc LoopbackGuard.init [PyObj.unhashableObj 0] =
      Except.ok (LoopbackGuard.init, ⟨[PyObj.unhashableObj 0]⟩) ∧
    ¬ ∃ e, makeScopeExc LoopbackGuard.init [PyObj.unhashableObj 0] =
      Except.error e := by
  refine ⟨rfl, ?_⟩
  rintro ⟨e, he⟩
  exact Except.noConfusion he

theorem acquireExc_fold_error (d : DDict PyObj) (pre post : List PyObj) (n : Nat) :
    List.foldlM
      (fun d item =>
        if item.isHashable then Except.ok (acquire1 d item)
        else Except.error PyError.typeError)
      d (pre ++ PyObj.unhashableObj n :: post) =
      Except.error PyError.typeError := by
  induction pre generalizing d with
  | nil => rfl
  | cons p pre2 ih =>
    by_cases hp : p.isHashable
    · simp only [List.cons_append, List.foldlM_cons, hp, if_true]
      rw [show ∀ x : DDict PyObj,
          (Except.ok x : Except PyError (DDict PyObj)) >>= _ = _ from fun x => rfl]
      exact ih (acquire1 d p)
    · simp only [List.cons_append, List.foldlM_cons, hp, if_false]
      rfl

/-- C8 amended: an item sequence containing an unhashable key makes
`acquire` raise (CPython's `TypeError`, not a library-defined
`InvalidKeyError`) at the point of the `acquire` call; `make_scope`
performs no validation and always succeeds, deferring the error to
scope entry. -/
theorem spec_c8_amended (g : LoopbackGuard PyObj) (pre post : List PyObj) (n : Nat) :
    acquireExc g (pre ++ PyObj.unhashableObj n :: post) =
      Except.error PyError.typeError ∧
    ∀ (g2 : LoopbackGuard PyObj) (items : List PyObj),
      makeScopeExc g2 items = Except.ok (g2, ⟨items⟩) := by
  refine ⟨?_, fun _ _ => rfl⟩
  obtain ⟨lk⟩ := g
  cases lk with
  | none =>
    show Except.map (fun d => (⟨some d⟩ : LoopbackGuard PyObj))
      (List.foldlM
        (fun d item =>
          if item.isHashable then Except.ok (acquire1 d item)
          else Except.error PyError.typeError)
        ([] : DDict PyObj) (pre ++ PyObj.unhashableObj n :: post)) =
      Except.error PyError.typeError
    rw [acquireExc_fold_error]
    rfl
  | some d0 =>
    show Except.map (fun d => (⟨some d⟩ : LoopbackGuard PyObj))
      (List.foldlM
        (fun d item =>
          if item.isHashable then Except.ok (acquire1 d item)
          else Except.error PyError.typeError)
        d0 (pre ++ PyObj.unhashableObj n :: post)) =
      Except.error PyError.typeError
    rw [acquireExc_fold_error]
    rfl

end QtBinder
